/-
Verification of the Watermark Compositing Engine
(repository `LLM4SE-ImageWatermark2`, file `app/core/image_processor.py`).

The Python source is shallowly embedded below.  Machine integers are
modelled with `Int`/`Nat`.  Python float arithmetic on the half-pixel
quantities appearing in the geometry code (`wm_w / 2`, `position - w / 2`,
…) is exact in IEEE doubles for the magnitudes involved, so it is
modelled with exact rationals (`ℚ`); Python's builtin `round` is
round-half-to-even and is modelled by `roundHalfEven`.  The
trigonometric computation of `_rotated_bounds` (`math.cos`/`math.sin`)
is modelled over the reals.  The raster backend (Pillow) is modelled by
pixel functions on exact rationals: `Image.alpha_composite` composites
the second image over the first with the standard "over" operator and
copies the destination pixel unchanged when the source pixel is fully
transparent, and the in-place `im.alpha_composite(wm, dest)` method
raises `ValueError("Destination must be non-negative")` for a negative
`dest` (modelled as `none`), while a `dest` beyond the canvas is clipped
away by the underlying paste.
-/
import Mathlib

/-- Python 3 `int(round(x))`: round to the nearest integer, ties to even. -/
def roundHalfEven (q : ℚ) : ℤ :=
  if q - ⌊q⌋ < 1/2 then ⌊q⌋
  else if 1/2 < q - ⌊q⌋ then ⌊q⌋ + 1
  else if ⌊q⌋ % 2 = 0 then ⌊q⌋ else ⌊q⌋ + 1

/-- An RGBA pixel with exact rational channels `(r, g, b, a)`,
channel range `[0, 255]`. -/
abbrev Pixel := ℚ × ℚ × ℚ × ℚ

/-- The alpha channel of a pixel. -/
def Pixel.alphaOf (p : Pixel) : ℚ := p.2.2.2

/-- Pillow's per-pixel "over" operator used by `Image.alpha_composite`
(`src` over `dst`).  Pillow's `AlphaComposite.c` copies the destination
pixel verbatim when the source alpha is 0; otherwise it blends with the
standard over equations. -/
def overPixel (dst src : Pixel) : Pixel :=
  if src.alphaOf = 0 then dst
  else
    let sa := src.alphaOf
    let da := dst.alphaOf
    let oa := sa + da * (255 - sa) / 255
    ((src.1 * sa + dst.1 * da * (255 - sa) / 255) / oa,
     (src.2.1 * sa + dst.2.1 * da * (255 - sa) / 255) / oa,
     (src.2.2.1 * sa + dst.2.2.1 * da * (255 - sa) / 255) / oa,
     oa)

/-- A raster image: dimensions plus a pixel function (only the pixels
with `x < width`, `y < height` are meaningful). -/
structure PixImage where
  width : ℕ
  height : ℕ
  px : ℕ → ℕ → Pixel

/-- Pixel-identity of two images: same dimensions and the same pixel
value everywhere inside the canvas. -/
def PixImage.Equiv (a b : PixImage) : Prop :=
  a.width = b.width ∧ a.height = b.height ∧
    ∀ x y, x < a.width → y < a.height → a.px x y = b.px x y

/-- `Image.new('RGBA', (w, h), (0, 0, 0, 0))`. -/
def blankImage (w h : ℕ) : PixImage := ⟨w, h, fun _ _ => (0, 0, 0, 0)⟩

/-- The in-place Pillow method `base.alpha_composite(im, dest=(dx, dy))`.
A negative destination raises `ValueError("Destination must be
non-negative")`, modelled as `none`; otherwise `im` is composited over
`base` at offset `(dx, dy)`, clipped to the canvas (the final paste
clips any part of the box beyond the image). -/
def alphaCompositeAt (base im : PixImage) (dx dy : ℤ) : Option PixImage :=
  if dx < 0 ∨ dy < 0 then none
  else some ⟨base.width, base.height, fun x y =>
    if dx ≤ (x : ℤ) ∧ (x : ℤ) < dx + im.width ∧ dy ≤ (y : ℤ) ∧ (y : ℤ) < dy + im.height then
      overPixel (base.px x y) (im.px ((x : ℤ) - dx).toNat ((y : ℤ) - dy).toNat)
    else base.px x y⟩

/-- The module function `Image.alpha_composite(base, overlay)` on two
images of equal size: pixelwise `overlay` over `base`. -/
def alphaCompositeFull (base overlay : PixImage) : PixImage :=
  ⟨base.width, base.height, fun x y => overPixel (base.px x y) (overlay.px x y)⟩

/-- `img.crop((l, t, r, b))` for a box with `0 ≤ l` and `0 ≤ t` (the
only use below). -/
def cropImage (img : PixImage) (l t r b : ℤ) : PixImage :=
  ⟨(r - l).toNat, (b - t).toNat, fun x y => img.px (x + l.toNat) (y + t.toNat)⟩

/-- The module-level dataclass `FontEntry` (image_processor.py, lines 20–24). -/
structure FontEntry where
  path : String
  style : String
  index : ℤ
deriving DecidableEq

/-- Python's substring test `needle in haystack` on character lists. -/
def subTokenIn (needle : List Char) : List Char → Bool
  | [] => needle.isEmpty
  | c :: rest => needle.isPrefixOf (c :: rest) || subTokenIn needle rest

/-- Python's substring test `needle in haystack` on strings. -/
def strHasToken (haystack needle : String) : Bool :=
  subTokenIn needle.toList haystack.toList

/-- Python `str.lower()`, modelled per character (the families and
style strings involved are ASCII). -/
def strLower (s : String) : String := String.mk (s.toList.map Char.toLower)

/-- Python `str.strip()`: drop leading and trailing whitespace. -/
def strTrim (s : String) : String :=
  String.mk (((s.toList.dropWhile Char.isWhitespace).reverse.dropWhile
    Char.isWhitespace).reverse)

namespace FontResolver

/-- The `bold_tokens` tuple of `FontResolver._score_entry`
(image_processor.py, line 159). -/
def boldTokens : List String := ["bold", "black", "heavy", "demi", "semi", "semibold", "medium"]

/-- The `italic_tokens` tuple of `FontResolver._score_entry`
(image_processor.py, line 160). -/
def italicTokens : List String := ["italic", "oblique", "slant", "slanted"]

/-- `has_bold` of `FontResolver._score_entry`: some bold token occurs in
the lower-cased style string. -/
def styleHasBold (style : String) : Bool :=
  boldTokens.any (fun t => strHasToken (strLower style) t)

/-- `has_italic` of `FontResolver._score_entry`. -/
def styleHasItalic (style : String) : Bool :=
  italicTokens.any (fun t => strHasToken (strLower style) t)

/-- `FontResolver._score_entry` (image_processor.py, lines 156–176). -/
def scoreEntry (style : String) (bold italic : Bool) : ℤ :=
  (if bold = styleHasBold style then 2 else 0) +
  (if italic = styleHasItalic style then 2 else 0) +
  (if bold && styleHasBold style then 1 else 0) +
  (if italic && styleHasItalic style then 1 else 0) +
  (if !bold && !italic && (strHasToken (strLower style) "regular" || strTrim (strLower style) = "")
    then 1 else 0)

/-- The per-entry total score used in the loop of `FontResolver.resolve`
(image_processor.py, lines 54–61): `_score_entry` plus the style-hint
bonus (+5 exact match, else +3 substring match). -/
def entryScore (targetStyle : String) (bold italic : Bool) (e : FontEntry) : ℤ :=
  if targetStyle ≠ "" then
    (if strLower e.style = targetStyle then scoreEntry e.style bold italic + 5
     else if strHasToken (strLower e.style) targetStyle then scoreEntry e.style bold italic + 3
     else scoreEntry e.style bold italic)
  else scoreEntry e.style bold italic

/-- `FontResolver._normalize_family` (image_processor.py, lines 123–127):
keep only the alphanumeric characters of the lower-cased name. -/
def normalizeFamily (name : String) : String :=
  String.mk ((strLower name).toList.filter Char.isAlphanum)

/-- `self._fonts_by_family.get(k)` on the family index, modelled as an
association list. -/
def lookupFamily (m : List (String × List FontEntry)) (k : String) : Option (List FontEntry) :=
  (m.find? (fun p => p.1 == k)).map (fun p => p.2)

/-- The entry-list selection of `FontResolver.resolve` (image_processor.py,
lines 42–46): look up the lower-cased family, and if that is falsy
(absent or empty) retry with the alphanumeric-normalized name.  A falsy
result is represented by `[]`. -/
def effectiveEntries (m : List (String × List FontEntry)) (family : String) : List FontEntry :=
  let first := (lookupFamily m (strLower family)).getD []
  if first ≠ [] then first
  else
    let n := normalizeFamily family
    if n ≠ "" then (lookupFamily m n).getD [] else []

/-- The `for entry in entries` loop of `FontResolver.resolve`
(image_processor.py, lines 51–64): keep the first entry whose score
strictly exceeds the best so far. -/
def bestLoop (score : FontEntry → ℤ) (best : Option FontEntry) (bestScore : ℤ) :
    List FontEntry → Option FontEntry × ℤ
  | [] => (best, bestScore)
  | e :: rest =>
    if bestScore < score e then bestLoop score (some e) (score e) rest
    else bestLoop score best bestScore rest

/-- The mutable state of a `FontResolver`: the family index built by
`_ensure_index` (the one-time platform font-directory scan is abstracted
as an already-built index, which is what the claims condition on) and
the memoization cache `_cache`, newest entry first. -/
structure FontResolverState where
  fontsByFamily : List (String × List FontEntry)
  cache : List ((String × Bool × Bool × String) × Option (String × ℤ))

/-- `self._cache` lookup by exact key. -/
def cacheLookup (c : List ((String × Bool × Bool × String) × Option (String × ℤ)))
    (k : String × Bool × Bool × String) : Option (Option (String × ℤ)) :=
  (c.find? (fun p => decide (p.1 = k))).map (fun p => p.2)

/-- `FontResolver.resolve` (image_processor.py, lines 33–71) as a state
transformer: a falsy family short-circuits to `None` without caching; a
cache hit returns the memoized value; otherwise the best-scoring entry
of the matched family (first seen wins ties, `entries[0]` as fallback)
is returned and memoized, or `None` is memoized when no entries exist. -/
def resolve (s : FontResolverState) (family : String) (bold italic : Bool)
    (styleName : String) : FontResolverState × Option (String × ℤ) :=
  if family = "" then (s, none)
  else
    let targetStyle := strTrim (strLower styleName)
    let key := (strLower family, bold, italic, targetStyle)
    match cacheLookup s.cache key with
    | some v => (s, v)
    | none =>
      match effectiveEntries s.fontsByFamily family with
      | [] => ({ s with cache := (key, none) :: s.cache }, none)
      | e :: rest =>
        let scored := bestLoop (entryScore targetStyle bold italic) none (-1) (e :: rest)
        let best :=
          match scored.1 with
          | some b => b
          | none => e
        ({ s with cache := (key, some (best.path, best.index)) :: s.cache },
         some (best.path, best.index))

end FontResolver

namespace ImageProcessor

/-- One axis of `ImageProcessor._clamp_position` (image_processor.py,
lines 488–506): `min_x = half_w`, `max_x = img_w - half_w`, midpoint
collapse when the bounds cross, clamp the requested coordinate, round. -/
def clampAxis (img wm : ℤ) (p : ℚ) : ℤ :=
  let lo : ℚ := (wm : ℚ) / 2
  let hi : ℚ := (img : ℚ) - (wm : ℚ) / 2
  let lo' : ℚ := if lo > hi then (img : ℚ) / 2 else lo
  let hi' : ℚ := if lo > hi then (img : ℚ) / 2 else hi
  roundHalfEven (max lo' (min p hi'))

/-- `ImageProcessor._clamp_position` (image_processor.py, lines 480–506).
The requested center is a pair of floats, modelled as rationals; the
image and watermark sizes are integer pairs.  `none` models a falsy
(`None` / empty) `position` argument. -/
def clampPosition (position : Option (ℚ × ℚ)) (imageSize : ℤ × ℤ)
    (watermarkSize : ℤ × ℤ) : ℤ × ℤ :=
  match position with
  | none => (imageSize.1 / 2, imageSize.2 / 2)
  | some p =>
    (clampAxis imageSize.1 watermarkSize.1 p.1,
     clampAxis imageSize.2 watermarkSize.2 p.2)

/-- The nine-anchor dictionary of `ImageProcessor._calculate_grid_position`
(image_processor.py, lines 445–478): the pre-rounding center chosen for a
`position_type` string (`positions.get(position_type, positions['bottom-right'])`). -/
def gridChosen (imgW imgH wmW wmH margin : ℤ) (positionType : String) : ℚ × ℚ :=
  let halfW : ℚ := (wmW : ℚ) / 2
  let halfH : ℚ := (wmH : ℚ) / 2
  let leftX : ℚ := (margin : ℚ) + halfW
  let rightX : ℚ := max ((margin : ℚ) + halfW) ((imgW : ℚ) - margin - halfW)
  let centerX : ℚ := (imgW : ℚ) / 2
  let topY : ℚ := (margin : ℚ) + halfH
  let bottomY : ℚ := max ((margin : ℚ) + halfH) ((imgH : ℚ) - margin - halfH)
  let centerY : ℚ := (imgH : ℚ) / 2
  if positionType = "top-left" then (leftX, topY)
  else if positionType = "top-center" then (centerX, topY)
  else if positionType = "top-right" then (rightX, topY)
  else if positionType = "middle-left" then (leftX, centerY)
  else if positionType = "center" then (centerX, centerY)
  else if positionType = "middle-right" then (rightX, centerY)
  else if positionType = "bottom-left" then (leftX, bottomY)
  else if positionType = "bottom-center" then (centerX, bottomY)
  else (rightX, bottomY)

/-- `ImageProcessor._calculate_grid_position` (image_processor.py, lines
445–478).  The watermark size is first clamped to the canvas size, then
one of nine anchor centers is chosen and rounded.  The Python default
`margin=20` is passed explicitly. -/
def calculateGridPosition (imageSize watermarkSize : ℤ × ℤ)
    (positionType : String) (margin : ℤ) : ℤ × ℤ :=
  let imgW := imageSize.1
  let imgH := imageSize.2
  let wmW := min watermarkSize.1 imgW
  let wmH := min watermarkSize.2 imgH
  let chosen := gridChosen imgW imgH wmW wmH margin positionType
  (roundHalfEven chosen.1, roundHalfEven chosen.2)

/-- `ImageProcessor._rotated_bounds` (image_processor.py, lines 328–337):
a rotation that is a multiple of 360° returns the box unchanged,
otherwise the axis-aligned bounds of the rotated box are computed with
`theta = radians(rotation)` and ceiled.  `math.cos`/`math.sin` are
modelled by the exact real functions. -/
noncomputable def rotatedBounds (width height rotation : ℤ) : ℤ × ℤ :=
  if rotation % 360 = 0 then (width, height)
  else
    let theta : ℝ := (rotation : ℝ) * Real.pi / 180
    let cosT : ℝ := |Real.cos theta|
    let sinT : ℝ := |Real.sin theta|
    (⌈(width : ℝ) * cosT + (height : ℝ) * sinT⌉,
     ⌈(width : ℝ) * sinT + (height : ℝ) * cosT⌉)

/-- `ImageProcessor._measure_text` (image_processor.py, lines 339–393).
The Pillow text-measurement primitive is abstracted: `b0`–`b3` are the
bbox reported by `draw.textbbox` and `strokePadding` is the
`2·stroke_width` fallback padding applied when the backend cannot
report stroke-aware bounds (both are backend outputs, not computed
here).  The function then applies the shadow expansion and the rotation
transform exactly as the source does. -/
noncomputable def measureTextModel (text : String) (b0 b1 b2 b3 strokePadding : ℤ)
    (shadow : Bool) (offX offY : ℤ) (rotation : ℤ) : ℤ × ℤ :=
  if text = "" then (0, 0)
  else
    let textWidth := b2 - b0 + strokePadding
    let textHeight := b3 - b1 + strokePadding
    let ox := if shadow then offX else 0
    let oy := if shadow then offY else 0
    let canvasWidth := textWidth + max 0 (-ox) + max 0 ox
    let canvasHeight := textHeight + max 0 (-oy) + max 0 oy
    rotatedBounds canvasWidth canvasHeight rotation

/-- The merge step of `ImageProcessor.add_text_watermark`
(image_processor.py, lines 881–900), applied to the already-rendered
(and possibly rotated) text layer `canvas`: destination top-left is
`center − layerSize/2` rounded, the layer is cropped to the overlap
with the base image, composited onto a blank canvas-sized overlay, and
the overlay is alpha-composited over the base; with no overlap the base
is returned unchanged. -/
def addTextWatermarkMerge (base canvas : PixImage) (pos : ℤ × ℤ) : PixImage :=
  let destX : ℤ := roundHalfEven ((pos.1 : ℚ) - (canvas.width : ℚ) / 2)
  let destY : ℤ := roundHalfEven ((pos.2 : ℚ) - (canvas.height : ℚ) / 2)
  let srcLeft : ℤ := max 0 (-destX)
  let srcTop : ℤ := max 0 (-destY)
  let srcRight : ℤ := min (canvas.width : ℤ) ((base.width : ℤ) - destX)
  let srcBottom : ℤ := min (canvas.height : ℤ) ((base.height : ℤ) - destY)
  if srcRight ≤ srcLeft ∨ srcBottom ≤ srcTop then base
  else
    let cropped := cropImage canvas srcLeft srcTop srcRight srcBottom
    let overlay := (alphaCompositeAt (blankImage base.width base.height) cropped
      (max destX 0) (max destY 0)).getD (blankImage base.width base.height)
    alphaCompositeFull base overlay

/-- The merge step of `ImageProcessor.add_image_watermark`
(image_processor.py, lines 934–945), applied to the already-scaled,
opacity-adjusted and rotated watermark layer `wm`: the watermark is
composited onto a blank canvas-sized overlay with
`overlay.alpha_composite(watermark, dest=(dest_x, dest_y))` — which
raises `ValueError` for a negative destination, caught by the
surrounding `except` which returns the original image — and the overlay
is then alpha-composited over the base. -/
def addImageWatermarkMerge (base wm : PixImage) (pos : ℤ × ℤ) : PixImage :=
  let destX : ℤ := roundHalfEven ((pos.1 : ℚ) - (wm.width : ℚ) / 2)
  let destY : ℤ := roundHalfEven ((pos.2 : ℚ) - (wm.height : ℚ) / 2)
  match alphaCompositeAt (blankImage base.width base.height) wm destX destY with
  | none => base
  | some overlay => alphaCompositeFull base overlay

end ImageProcessor

/-- The subset of the `WatermarkConfig` dataclass
(config_manager.py, lines 12–57) read or written by
`ImageProcessor.apply_watermark`.  The dataclass has no
`font_family_aliases` or `font_style_name` fields, so the corresponding
`getattr(..., default)` reads in `apply_watermark` always yield `[]`
and `""`.  `custom_position` is `none` for a falsy (`None`/empty)
value; a present tuple — even `(0, 0)` — is truthy in Python. -/
structure WatermarkConfig where
  text : String
  font_size : ℤ
  opacity : ℤ
  position_type : String
  custom_position : Option (ℚ × ℚ)
  use_custom_position : Bool
  font_family : String
  font_bold : Bool
  font_italic : Bool
  font_path : String
  font_index : ℤ
  watermark_type : String
  image_watermark_path : String
  image_scale : ℚ
  image_opacity : ℤ
  rotation_angle : ℤ
  resize_enabled : Bool
  resize_method : String
  resize_width : ℤ
  resize_height : ℤ
  resize_percentage : ℤ
  keep_aspect_ratio : Bool

namespace ImageProcessor

/-- `ImageProcessor.resize_image` (image_processor.py, lines 986–1019).
The Lanczos resampling of the pixel grid is a backend primitive,
abstracted as `resample`; the new dimensions are computed exactly as in
the source (float scale factors modelled as exact rationals, `int()`
truncation as the floor of the nonnegative values involved). -/
def resizeImage (resample : PixImage → ℕ × ℕ → PixImage) (image : PixImage)
    (method : String) (targetWidth targetHeight percentage : ℤ)
    (keepAspect : Bool) : PixImage :=
  let cw : ℤ := image.width
  let ch : ℤ := image.height
  let dims : Option (ℤ × ℤ) :=
    if method = "percentage" then
      let scale : ℚ := ((max 1 percentage : ℤ) : ℚ) / 100
      some (max 1 ⌊(cw : ℚ) * scale⌋, max 1 ⌊(ch : ℚ) * scale⌋)
    else if method = "width" then
      let newW := max 1 targetWidth
      if keepAspect then
        some (newW, max 1 ⌊(ch : ℚ) * ((newW : ℚ) / (cw : ℚ))⌋)
      else
        some (newW, max 1 (if 0 < targetHeight then targetHeight else ch))
    else if method = "height" then
      let newH := max 1 targetHeight
      if keepAspect then
        some (max 1 ⌊(cw : ℚ) * ((newH : ℚ) / (ch : ℚ))⌋, newH)
      else
        some (max 1 (if 0 < targetWidth then targetWidth else cw), newH)
    else none
  match dims with
  | none => image
  | some (newW, newH) =>
    if newW = cw ∧ newH = ch then image
    else resample image (newW.toNat, newH.toNat)

/-- `ImageProcessor._get_image_watermark_size` (image_processor.py,
lines 395–410): `(0, 0)` for a missing path, otherwise the scaled
(clamped to `[0.05, 10.0]`) and rotation-expanded size of the decoded
watermark.  The decoded-image cache is abstracted as `store`; `fs`
models `os.path.exists`. -/
noncomputable def getImageWatermarkSize (store : String → Option PixImage)
    (fs : String → Bool) (path : String) (scale : ℚ) (rotation : ℤ) : ℤ × ℤ :=
  if path = "" ∨ fs path = false then (0, 0)
  else
    match store path with
    | none => (0, 0)
    | some wm =>
      let scale' := max (1/20 : ℚ) (min scale 10)
      rotatedBounds (max 1 ⌊(wm.width : ℚ) * scale'⌋) (max 1 ⌊(wm.height : ℚ) * scale'⌋)
        rotation

/-- `ImageProcessor.apply_watermark` (image_processor.py, lines
193–242): copy the input, apply the optional pre-resize, and dispatch
on the watermark type.  In the image branch, the watermark size and
position are computed and the image watermark is composited only when
its source path is non-empty and exists on disk — otherwise the working
copy is returned unchanged.  The text branch (lines 244–326) is
abstracted as `textBranch`, and the full `add_image_watermark`
rendering call as `addImage` (its merge step is modelled by
`addImageWatermarkMerge`). -/
noncomputable def applyWatermark (resample : PixImage → ℕ × ℕ → PixImage)
    (fs : String → Bool) (store : String → Option PixImage)
    (addImage : PixImage → String → ℤ × ℤ → ℚ → ℤ → ℤ → PixImage)
    (textBranch : PixImage → WatermarkConfig → PixImage)
    (image : PixImage) (cfg : WatermarkConfig) : PixImage :=
  let working :=
    if cfg.resize_enabled then
      resizeImage resample image cfg.resize_method cfg.resize_width cfg.resize_height
        cfg.resize_percentage cfg.keep_aspect_ratio
    else image
  if cfg.watermark_type = "image" then
    let imageSize : ℤ × ℤ := ((working.width : ℤ), (working.height : ℤ))
    let wmSize := getImageWatermarkSize store fs cfg.image_watermark_path cfg.image_scale
      cfg.rotation_angle
    let position :=
      match cfg.use_custom_position, cfg.custom_position with
      | true, some p => clampPosition (some p) imageSize wmSize
      | _, _ => calculateGridPosition imageSize wmSize cfg.position_type 20
    if cfg.image_watermark_path ≠ "" ∧ fs cfg.image_watermark_path = true then
      addImage working cfg.image_watermark_path position cfg.image_scale cfg.image_opacity
        cfg.rotation_angle
    else working
  else textBranch working cfg

/-- `ImageProcessor.resolve_font_with_aliases` (image_processor.py,
lines 702–728): walk the candidate names, skipping falsy and
already-seen ones, resolving each name and then its
alphanumeric-normalized form, returning the first success together with
the original name; the `FontResolver` cache state is threaded through. -/
def resolveAliasLoop (bold italic : Bool) (styleName : String) :
    FontResolver.FontResolverState → List String → List String →
    FontResolver.FontResolverState × Option (String × (String × ℤ))
  | s, _, [] => (s, none)
  | s, seen, name :: rest =>
    if name = "" then resolveAliasLoop bold italic styleName s seen rest
    else if strLower name ∈ seen then resolveAliasLoop bold italic styleName s seen rest
    else
      let seen₁ := strLower name :: seen
      let r₁ := FontResolver.resolve s name bold italic styleName
      match r₁.2 with
      | some res => (r₁.1, some (name, res))
      | none =>
        let normalized := FontResolver.normalizeFamily name
        if normalized ≠ "" ∧ normalized ∉ seen₁ then
          let seen₂ := normalized :: seen₁
          let r₂ := FontResolver.resolve r₁.1 normalized bold italic styleName
          match r₂.2 with
          | some res => (r₂.1, some (name, res))
          | none => resolveAliasLoop bold italic styleName r₂.1 seen₂ rest
        else resolveAliasLoop bold italic styleName r₁.1 seen₁ rest

/-- The font-resolution block of the text branch of
`ImageProcessor.apply_watermark` (image_processor.py, lines 248–272),
as a transformer of the caller-owned configuration object: when
`config.font_path` is falsy, the font family (plus the always-empty
alias list, or `["Arial"]` when no family is set) is resolved through
`resolve_font_with_aliases`, and on success the resolved family name,
font path and face index are written back into the config with
`setattr`. -/
def applyFontResolutionStep (s : FontResolver.FontResolverState) (cfg : WatermarkConfig) :
    FontResolver.FontResolverState × WatermarkConfig :=
  if cfg.font_path = "" then
    let families := if cfg.font_family ≠ "" then [cfg.font_family] else []
    let candidates := if families = [] then ["Arial"] else families
    let r := resolveAliasLoop cfg.font_bold cfg.font_italic "" s [] candidates
    match r.2 with
    | some (fam, res) =>
      (r.1, { cfg with
        font_family := if fam ≠ "" then fam else cfg.font_family,
        font_path := res.1,
        font_index := res.2 })
    | none => (r.1, cfg)
  else (s, cfg)

end ImageProcessor

/-- A concrete configuration used by the evaluation witnesses: an image
watermark with an empty source path, no pre-resize, and an unresolved
font (`font_path = ""`, family `Arial`, regular weight and slant). -/
def sampleConfig : WatermarkConfig :=
  { text := "Sample Watermark"
    font_size := 36
    opacity := 128
    position_type := "bottom-right"
    custom_position := none
    use_custom_position := false
    font_family := "Arial"
    font_bold := false
    font_italic := false
    font_path := ""
    font_index := 0
    watermark_type := "image"
    image_watermark_path := ""
    image_scale := 1
    image_opacity := 128
    rotation_angle := 0
    resize_enabled := false
    resize_method := "percentage"
    resize_width := 800
    resize_height := 600
    resize_percentage := 100
    keep_aspect_ratio := true }


theorem roundHalfEven_ge (q : ℚ) : (q : ℚ) - 1/2 ≤ (roundHalfEven q : ℚ) := by
  unfold roundHalfEven
  have hf : (⌊q⌋ : ℚ) ≤ q := Int.floor_le q
  have hf' : q < ⌊q⌋ + 1 := Int.lt_floor_add_one q
  split_ifs with h1 h2 h3 <;> push_cast <;> linarith

theorem roundHalfEven_le (q : ℚ) : (roundHalfEven q : ℚ) ≤ q + 1/2 := by
  unfold roundHalfEven
  have hf : (⌊q⌋ : ℚ) ≤ q := Int.floor_le q
  have hf' : q < ⌊q⌋ + 1 := Int.lt_floor_add_one q
  split_ifs with h1 h2 h3 <;> push_cast <;> linarith

namespace ImageProcessor

theorem clampAxis_half_pixel (img wm : ℤ) (p : ℚ) (h : wm ≤ img) :
    (wm : ℚ) / 2 - 1/2 ≤ (clampAxis img wm p : ℚ) ∧
      (clampAxis img wm p : ℚ) + (wm : ℚ) / 2 ≤ (img : ℚ) + 1/2 := by
  have hwm : (wm : ℚ) ≤ (img : ℚ) := by exact_mod_cast h
  have hle : (wm : ℚ) / 2 ≤ (img : ℚ) - (wm : ℚ) / 2 := by linarith
  have hnot : ¬((wm : ℚ) / 2 > (img : ℚ) - (wm : ℚ) / 2) := not_lt.2 hle
  unfold clampAxis
  simp only [hnot, if_false]
  set x : ℚ := max ((wm : ℚ) / 2) (min p ((img : ℚ) - (wm : ℚ) / 2)) with hx
  have hxlo : (wm : ℚ) / 2 ≤ x := le_max_left _ _
  have hxhi : x ≤ (img : ℚ) - (wm : ℚ) / 2 := max_le hle (min_le_right _ _)
  have h1 := roundHalfEven_ge x
  have h2 := roundHalfEven_le x
  constructor <;> linarith

/-- C1 (amended): for watermark sizes within the canvas, the integer
center returned by `_clamp_position` keeps the watermark box inside the
canvas up to the half-pixel error of rounding the clamped coordinate:
`x - ww/2 ≥ -1/2` and `x + ww/2 ≤ cw + 1/2`, and analogously for y. -/
theorem clampPosition_box_within_half_pixel (cw ch ww wh : ℤ) (px py : ℚ)
    (hx : ww ≤ cw) (hy : wh ≤ ch) :
    ((ww : ℚ) / 2 - 1/2 ≤ ((clampPosition (some (px, py)) (cw, ch) (ww, wh)).1 : ℚ) ∧
      ((clampPosition (some (px, py)) (cw, ch) (ww, wh)).1 : ℚ) + (ww : ℚ) / 2 ≤ (cw : ℚ) + 1/2) ∧
    ((wh : ℚ) / 2 - 1/2 ≤ ((clampPosition (some (px, py)) (cw, ch) (ww, wh)).2 : ℚ) ∧
      ((clampPosition (some (px, py)) (cw, ch) (ww, wh)).2 : ℚ) + (wh : ℚ) / 2 ≤ (ch : ℚ) + 1/2) := by
  exact ⟨clampAxis_half_pixel cw ww px hx, clampAxis_half_pixel ch wh py hy⟩

/-- C1 counterexample: canvas 10×10, watermark 1×1, requested center
(0,0).  The clamped pre-rounding center is (1/2, 1/2), but Python's
round-half-to-even rounding returns (0,0), so the box of width 1
centered there overhangs the canvas by half a pixel: 0 - 1/2 < 0,
violating the claimed `x - ww/2 ≥ 0` after rounding. -/
theorem clampPosition_rounding_counterexample :
    (1 : ℤ) ≤ 10 ∧ (1 : ℤ) ≤ 10 ∧
    clampPosition (some (0, 0)) (10, 10) (1, 1) = (0, 0) ∧
    ¬(0 ≤ ((clampPosition (some (0, 0)) (10, 10) (1, 1)).1 : ℚ) - (1 : ℚ) / 2) := by
  refine ⟨by norm_num, by norm_num, ?_, ?_⟩ <;>
    norm_num [clampPosition, clampAxis, roundHalfEven]

/-- Witness for `clampPosition_box_within_half_pixel` at canvas 10×10,
watermark 3×3, requested center (1,1). -/
theorem clampPosition_box_within_half_pixel_witness :
    ((3 : ℤ) ≤ 10 ∧ (3 : ℤ) ≤ 10) ∧
    (((3 : ℤ) : ℚ) / 2 - 1/2 ≤ ((clampPosition (some (1, 1)) (10, 10) (3, 3)).1 : ℚ) ∧
      ((clampPosition (some (1, 1)) (10, 10) (3, 3)).1 : ℚ) + ((3 : ℤ) : ℚ) / 2 ≤ ((10 : ℤ) : ℚ) + 1/2) ∧
    (((3 : ℤ) : ℚ) / 2 - 1/2 ≤ ((clampPosition (some (1, 1)) (10, 10) (3, 3)).2 : ℚ) ∧
      ((clampPosition (some (1, 1)) (10, 10) (3, 3)).2 : ℚ) + ((3 : ℤ) : ℚ) / 2 ≤ ((10 : ℤ) : ℚ) + 1/2) := by
  refine ⟨⟨by norm_num, by norm_num⟩, ?_⟩
  exact clampPosition_box_within_half_pixel 10 10 3 3 1 1 (by norm_num) (by norm_num)

end ImageProcessor

namespace ImageProcessor

/-- C2 (amended): when the canvas-clamped watermark size exceeds
`canvasSize − 2·margin` on an axis, the near and far bounds on that
axis both collapse to the **near** bound `margin + wm/2` (not the
canvas midpoint).  Per axis, independently of the other axis: every
anchor not centered on that axis returns
`round(margin + min(wm, canvas)/2)` there, while anchors centered on
that axis return the rounded canvas midpoint `round(canvas/2)`. -/
theorem calculateGridPosition_collapse (imgW imgH wmW wmH margin : ℤ) (pt : String) :
    (imgW - 2 * margin < min wmW imgW →
      ((pt ≠ "top-center" ∧ pt ≠ "center" ∧ pt ≠ "bottom-center" →
        (calculateGridPosition (imgW, imgH) (wmW, wmH) pt margin).1 =
          roundHalfEven ((margin : ℚ) + ((min wmW imgW : ℤ) : ℚ) / 2)) ∧
       (pt = "top-center" ∨ pt = "center" ∨ pt = "bottom-center" →
        (calculateGridPosition (imgW, imgH) (wmW, wmH) pt margin).1 =
          roundHalfEven ((imgW : ℚ) / 2)))) ∧
    (imgH - 2 * margin < min wmH imgH →
      ((pt ≠ "middle-left" ∧ pt ≠ "center" ∧ pt ≠ "middle-right" →
        (calculateGridPosition (imgW, imgH) (wmW, wmH) pt margin).2 =
          roundHalfEven ((margin : ℚ) + ((min wmH imgH : ℤ) : ℚ) / 2)) ∧
       (pt = "middle-left" ∨ pt = "center" ∨ pt = "middle-right" →
        (calculateGridPosition (imgW, imgH) (wmW, wmH) pt margin).2 =
          roundHalfEven ((imgH : ℚ) / 2)))) := by
  constructor
  · intro hx
    have hxQ : (imgW : ℚ) - 2 * margin < ((min wmW imgW : ℤ) : ℚ) := by exact_mod_cast hx
    have hmx : max ((margin : ℚ) + ((min wmW imgW : ℤ) : ℚ) / 2)
        ((imgW : ℚ) - margin - ((min wmW imgW : ℤ) : ℚ) / 2)
        = (margin : ℚ) + ((min wmW imgW : ℤ) : ℚ) / 2 := max_eq_left (by linarith)
    constructor
    · rintro ⟨h2, h5, h8⟩
      unfold calculateGridPosition gridChosen
      dsimp only
      split_ifs with g1 g2 g3 g4 g5 g6 g7 g8 <;>
        first
          | (exact absurd g2 h2) | (exact absurd g5 h5) | (exact absurd g8 h8)
          | simp only [hmx]
    · rintro (rfl | rfl | rfl) <;> rfl
  · intro hy
    have hyQ : (imgH : ℚ) - 2 * margin < ((min wmH imgH : ℤ) : ℚ) := by exact_mod_cast hy
    have hmy : max ((margin : ℚ) + ((min wmH imgH : ℤ) : ℚ) / 2)
        ((imgH : ℚ) - margin - ((min wmH imgH : ℤ) : ℚ) / 2)
        = (margin : ℚ) + ((min wmH imgH : ℤ) : ℚ) / 2 := max_eq_left (by linarith)
    constructor
    · rintro ⟨h4, h5, h6⟩
      unfold calculateGridPosition gridChosen
      dsimp only
      split_ifs with g1 g2 g3 g4 g5 g6 g7 g8 <;>
        first
          | (exact absurd g4 h4) | (exact absurd g5 h5) | (exact absurd g6 h6)
          | simp only [hmy]
    · rintro (rfl | rfl | rfl) <;> rfl

/-- C2 counterexample: canvas 100×50, watermark 80×10, anchor
`top-left`, margin 20.  The watermark exceeds `100 − 2·20 = 60` on the
x axis, yet the returned x coordinate is `margin + half_w = 60`, not the
canvas midpoint 50. -/
theorem calculateGridPosition_midpoint_counterexample :
    ((100 : ℤ) - 2 * 20 < min 80 100) ∧
    calculateGridPosition (100, 50) (80, 10) "top-left" 20 = (60, 25) ∧
    ((calculateGridPosition (100, 50) (80, 10) "top-left" 20).1 : ℚ) ≠ (100 : ℚ) / 2 := by
  refine ⟨by norm_num, ?_, ?_⟩ <;>
    norm_num [calculateGridPosition, gridChosen, roundHalfEven]

/-- Witness for `calculateGridPosition_collapse`: x-axis-only collapse
on a 100×500 canvas with an 80×10 watermark (anchors `top-left` and
`top-center`), and y-axis collapse on a 500×100 canvas with a 10×80
watermark (anchor `bottom-center`). -/
theorem calculateGridPosition_collapse_witness :
    ((100 : ℤ) - 2 * 20 < min 80 100 ∧
      (("top-left" : String) ≠ "top-center" ∧ ("top-left" : String) ≠ "center" ∧
        ("top-left" : String) ≠ "bottom-center")) ∧
    (calculateGridPosition (100, 500) (80, 10) "top-left" 20).1 =
      roundHalfEven ((20 : ℚ) + ((min 80 100 : ℤ) : ℚ) / 2) ∧
    (calculateGridPosition (100, 500) (80, 10) "top-center" 20).1 =
      roundHalfEven ((100 : ℚ) / 2) ∧
    (calculateGridPosition (500, 100) (10, 80) "bottom-center" 20).2 =
      roundHalfEven ((20 : ℚ) + ((min 80 100 : ℤ) : ℚ) / 2) := by
  refine ⟨⟨by norm_num, by decide, by decide, by decide⟩, ?_, ?_, ?_⟩
  · exact ((calculateGridPosition_collapse 100 500 80 10 20 "top-left").1
      (by norm_num)).1 ⟨by decide, by decide, by decide⟩
  · exact ((calculateGridPosition_collapse 100 500 80 10 20 "top-center").1
      (by norm_num)).2 (Or.inl rfl)
  · exact ((calculateGridPosition_collapse 500 100 10 80 20 "bottom-center").2
      (by norm_num)).1 ⟨by decide, by decide, by decide⟩

/-- C10: any `position_type` string that is none of the nine named
anchors falls through `positions.get(position_type, positions['bottom-right'])`
to the `bottom-right` entry, so the returned center is exactly the
`bottom-right` center for the same sizes. -/
theorem calculateGridPosition_unknown_anchor (imageSize watermarkSize : ℤ × ℤ)
    (margin : ℤ) (pt : String)
    (h1 : pt ≠ "top-left") (h2 : pt ≠ "top-center") (h3 : pt ≠ "top-right")
    (h4 : pt ≠ "middle-left") (h5 : pt ≠ "center") (h6 : pt ≠ "middle-right")
    (h7 : pt ≠ "bottom-left") (h8 : pt ≠ "bottom-center") (h9 : pt ≠ "bottom-right") :
    calculateGridPosition imageSize watermarkSize pt margin =
      calculateGridPosition imageSize watermarkSize "bottom-right" margin := by
  unfold calculateGridPosition gridChosen
  simp only [if_neg h1, if_neg h2, if_neg h3, if_neg h4, if_neg h5, if_neg h6,
    if_neg h7, if_neg h8]
  rfl

/-- Witness for `calculateGridPosition_unknown_anchor` at the unknown
anchor string `"south-east"` on a 640×480 canvas with a 100×40 watermark. -/
theorem calculateGridPosition_unknown_anchor_witness :
    (("south-east" : String) ≠ "top-left" ∧ ("south-east" : String) ≠ "top-center" ∧
      ("south-east" : String) ≠ "top-right" ∧ ("south-east" : String) ≠ "middle-left" ∧
      ("south-east" : String) ≠ "center" ∧ ("south-east" : String) ≠ "middle-right" ∧
      ("south-east" : String) ≠ "bottom-left" ∧ ("south-east" : String) ≠ "bottom-center" ∧
      ("south-east" : String) ≠ "bottom-right") ∧
    calculateGridPosition (640, 480) (100, 40) "south-east" 20 =
      calculateGridPosition (640, 480) (100, 40) "bottom-right" 20 := by
  refine ⟨⟨by decide, by decide, by decide, by decide, by decide, by decide, by decide,
    by decide, by decide⟩, ?_⟩
  exact calculateGridPosition_unknown_anchor (640, 480) (100, 40) 20 "south-east"
    (by decide) (by decide) (by decide) (by decide) (by decide) (by decide)
    (by decide) (by decide) (by decide)

end ImageProcessor

namespace ImageProcessor

/-- C4 counterexample: the unrotated 10×2 box has width 10, but its
45°-rotated bounds have width `ceil(6·sqrt 2) = 9 < 10`, so rotating a
non-square box can shrink the measured width. -/
theorem rotatedBounds_45_counterexample :
    (10 : ℤ) ≠ 2 ∧ (rotatedBounds 10 2 45).1 < (rotatedBounds 10 2 0).1 := by
  refine ⟨by decide, ?_⟩
  have h0 : (rotatedBounds 10 2 0).1 = 10 := by
    unfold rotatedBounds
    rw [if_pos (by decide)]
  have hθ : ((45 : ℤ) : ℝ) * Real.pi / 180 = Real.pi / 4 := by
    push_cast
    ring
  have hs0 : (0 : ℝ) ≤ Real.sqrt 2 := Real.sqrt_nonneg 2
  have hs2 : Real.sqrt 2 ^ 2 = 2 := Real.sq_sqrt (by norm_num)
  have habs : |Real.sqrt 2 / 2| = Real.sqrt 2 / 2 := abs_of_nonneg (by positivity)
  have h45 : (rotatedBounds 10 2 45).1 = 9 := by
    unfold rotatedBounds
    rw [if_neg (by decide)]
    dsimp only
    rw [hθ, Real.cos_pi_div_four, Real.sin_pi_div_four, habs]
    have : ((10 : ℤ) : ℝ) * (Real.sqrt 2 / 2) + ((2 : ℤ) : ℝ) * (Real.sqrt 2 / 2)
        = 6 * Real.sqrt 2 := by
      push_cast
      ring
    rw [this]
    rw [Int.ceil_eq_iff]
    constructor
    · push_cast
      nlinarith [hs2, hs0]
    · push_cast
      nlinarith [hs2, hs0]
  rw [h0, h45]
  norm_num

/-- C4 (amended): rotation monotonicity holds when the box is at least
as tall as it is wide: for `0 ≤ w < h`, the width of the 45°-rotated
bounds is at least the width of the unrotated bounds. -/
theorem rotatedBounds_mono_45 (w h : ℤ) (hw : 0 ≤ w) (hwh : w < h) :
    (rotatedBounds w h 0).1 ≤ (rotatedBounds w h 45).1 := by
  have h0 : (rotatedBounds w h 0).1 = w := by
    unfold rotatedBounds
    rw [if_pos (by decide)]
  rw [h0]
  have hθ : ((45 : ℤ) : ℝ) * Real.pi / 180 = Real.pi / 4 := by
    push_cast
    ring
  have hs0 : (0 : ℝ) ≤ Real.sqrt 2 := Real.sqrt_nonneg 2
  have hs2 : Real.sqrt 2 ^ 2 = 2 := Real.sq_sqrt (by norm_num)
  have hs1 : (1 : ℝ) ≤ Real.sqrt 2 := by nlinarith [hs2, hs0]
  have habs : |Real.sqrt 2 / 2| = Real.sqrt 2 / 2 := abs_of_nonneg (by positivity)
  unfold rotatedBounds
  rw [if_neg (by decide)]
  dsimp only
  rw [hθ, Real.cos_pi_div_four, Real.sin_pi_div_four, habs]
  have hwR : (0 : ℝ) ≤ (w : ℝ) := by exact_mod_cast hw
  have hhw : (w : ℝ) ≤ (h : ℝ) := by exact_mod_cast le_of_lt hwh
  have hval : (w : ℝ) ≤ (w : ℝ) * (Real.sqrt 2 / 2) + (h : ℝ) * (Real.sqrt 2 / 2) := by
    nlinarith [mul_le_mul_of_nonneg_right hhw (by positivity : (0:ℝ) ≤ Real.sqrt 2 / 2),
      mul_le_mul_of_nonneg_left hs1 hwR]
  have := Int.le_ceil ((w : ℝ) * (Real.sqrt 2 / 2) + (h : ℝ) * (Real.sqrt 2 / 2))
  exact_mod_cast le_trans hval this

/-- C3: a rotation that is a multiple of 360° is a no-op returning the
box unchanged; any other rotation yields
`width = ceil(|w·cos θ| + |h·sin θ|)`, `height = ceil(|w·sin θ| + |h·cos θ|)`
with `θ = rot·π/180`; and measuring with rotation 0 returns the
unrotated stroke+shadow-expanded bounding box exactly. -/
theorem rotatedBounds_spec (w h rot : ℤ) (hw : 0 ≤ w) (hh : 0 ≤ h) :
    (rot % 360 = 0 → rotatedBounds w h rot = (w, h)) ∧
    (rot % 360 ≠ 0 →
      rotatedBounds w h rot =
        (⌈|(w : ℝ) * Real.cos ((rot : ℝ) * Real.pi / 180)| +
            |(h : ℝ) * Real.sin ((rot : ℝ) * Real.pi / 180)|⌉,
         ⌈|(w : ℝ) * Real.sin ((rot : ℝ) * Real.pi / 180)| +
            |(h : ℝ) * Real.cos ((rot : ℝ) * Real.pi / 180)|⌉)) ∧
    (∀ (text : String) (b0 b1 b2 b3 sp offX offY : ℤ) (shadow : Bool), text ≠ "" →
      measureTextModel text b0 b1 b2 b3 sp shadow offX offY 0 =
        (b2 - b0 + sp + max 0 (-(if shadow then offX else 0)) +
           max 0 (if shadow then offX else 0),
         b3 - b1 + sp + max 0 (-(if shadow then offY else 0)) +
           max 0 (if shadow then offY else 0))) := by
  have hwR : (0 : ℝ) ≤ (w : ℝ) := by exact_mod_cast hw
  have hhR : (0 : ℝ) ≤ (h : ℝ) := by exact_mod_cast hh
  refine ⟨?_, ?_, ?_⟩
  · intro hz
    unfold rotatedBounds
    rw [if_pos hz]
  · intro hnz
    unfold rotatedBounds
    rw [if_neg hnz]
    dsimp only
    rw [abs_mul ((w : ℝ)), abs_mul ((h : ℝ)), abs_mul ((w : ℝ)), abs_mul ((h : ℝ)),
      abs_of_nonneg hwR, abs_of_nonneg hhR]
  · intro text b0 b1 b2 b3 sp offX offY shadow htext
    unfold measureTextModel
    rw [if_neg htext]
    dsimp only
    unfold rotatedBounds
    rw [if_pos (by decide)]

/-- Witness for `rotatedBounds_spec` at the 3×4 box rotated 90°. -/
theorem rotatedBounds_spec_witness :
    ((0 : ℤ) ≤ 3 ∧ (0 : ℤ) ≤ 4) ∧
    (((90 : ℤ) % 360 = 0 → rotatedBounds 3 4 90 = (3, 4)) ∧
      ((90 : ℤ) % 360 ≠ 0 →
        rotatedBounds 3 4 90 =
          (⌈|((3 : ℤ) : ℝ) * Real.cos (((90 : ℤ) : ℝ) * Real.pi / 180)| +
              |((4 : ℤ) : ℝ) * Real.sin (((90 : ℤ) : ℝ) * Real.pi / 180)|⌉,
           ⌈|((3 : ℤ) : ℝ) * Real.sin (((90 : ℤ) : ℝ) * Real.pi / 180)| +
              |((4 : ℤ) : ℝ) * Real.cos (((90 : ℤ) : ℝ) * Real.pi / 180)|⌉)) ∧
      (∀ (text : String) (b0 b1 b2 b3 sp offX offY : ℤ) (shadow : Bool), text ≠ "" →
        measureTextModel text b0 b1 b2 b3 sp shadow offX offY 0 =
          (b2 - b0 + sp + max 0 (-(if shadow then offX else 0)) +
             max 0 (if shadow then offX else 0),
           b3 - b1 + sp + max 0 (-(if shadow then offY else 0)) +
             max 0 (if shadow then offY else 0)))) := by
  exact ⟨⟨by decide, by decide⟩, rotatedBounds_spec 3 4 90 (by decide) (by decide)⟩

/-- Witness for `rotatedBounds_mono_45` at the 3×4 box. -/
theorem rotatedBounds_mono_45_witness :
    ((0 : ℤ) ≤ 3 ∧ (3 : ℤ) < 4) ∧
    (rotatedBounds 3 4 0).1 ≤ (rotatedBounds 3 4 45).1 := by
  exact ⟨⟨by decide, by decide⟩, rotatedBounds_mono_45 3 4 (by decide) (by decide)⟩

end ImageProcessor

namespace ImageProcessor

theorem overPixel_transparent (dst : Pixel) : overPixel dst (0, 0, 0, 0) = dst := by
  unfold overPixel Pixel.alphaOf
  norm_num

/-- C5: when the destination rectangle (top-left = center − layerSize/2,
rounded) of the rendered layer has zero intersection with the canvas,
compositing returns an image pixel-identical to the base image, for
both the text-watermark merge and the image-watermark merge. -/
theorem merge_no_overlap_noop (base layer wm : PixImage) (pos : ℤ × ℤ)
    (hl : roundHalfEven ((pos.1 : ℚ) - (layer.width : ℚ) / 2) + layer.width ≤ 0 ∨
          (base.width : ℤ) ≤ roundHalfEven ((pos.1 : ℚ) - (layer.width : ℚ) / 2) ∨
          roundHalfEven ((pos.2 : ℚ) - (layer.height : ℚ) / 2) + layer.height ≤ 0 ∨
          (base.height : ℤ) ≤ roundHalfEven ((pos.2 : ℚ) - (layer.height : ℚ) / 2))
    (hw : roundHalfEven ((pos.1 : ℚ) - (wm.width : ℚ) / 2) + wm.width ≤ 0 ∨
          (base.width : ℤ) ≤ roundHalfEven ((pos.1 : ℚ) - (wm.width : ℚ) / 2) ∨
          roundHalfEven ((pos.2 : ℚ) - (wm.height : ℚ) / 2) + wm.height ≤ 0 ∨
          (base.height : ℤ) ≤ roundHalfEven ((pos.2 : ℚ) - (wm.height : ℚ) / 2)) :
    addTextWatermarkMerge base layer pos = base ∧
    PixImage.Equiv (addImageWatermarkMerge base wm pos) base := by
  constructor
  · unfold addTextWatermarkMerge
    dsimp only
    rw [if_pos]
    rcases hl with h | h | h | h
    · exact Or.inl (le_trans (min_le_left _ _)
        (le_trans (by linarith) (le_max_right 0 _)))
    · exact Or.inl (le_trans (min_le_right _ _)
        (le_trans (by linarith) (le_max_left 0 _)))
    · exact Or.inr (le_trans (min_le_left _ _)
        (le_trans (by linarith) (le_max_right 0 _)))
    · exact Or.inr (le_trans (min_le_right _ _)
        (le_trans (by linarith) (le_max_left 0 _)))
  · unfold addImageWatermarkMerge
    dsimp only
    by_cases hneg : roundHalfEven ((pos.1 : ℚ) - (wm.width : ℚ) / 2) < 0 ∨
        roundHalfEven ((pos.2 : ℚ) - (wm.height : ℚ) / 2) < 0
    · rw [show alphaCompositeAt (blankImage base.width base.height) wm
          (roundHalfEven ((pos.1 : ℚ) - (wm.width : ℚ) / 2))
          (roundHalfEven ((pos.2 : ℚ) - (wm.height : ℚ) / 2)) = none from by
        unfold alphaCompositeAt
        rw [if_pos hneg]]
      exact ⟨rfl, rfl, fun _ _ _ _ => rfl⟩
    · push_neg at hneg
      rw [show alphaCompositeAt (blankImage base.width base.height) wm
          (roundHalfEven ((pos.1 : ℚ) - (wm.width : ℚ) / 2))
          (roundHalfEven ((pos.2 : ℚ) - (wm.height : ℚ) / 2)) =
          some ⟨base.width, base.height, fun x y =>
            if roundHalfEven ((pos.1 : ℚ) - (wm.width : ℚ) / 2) ≤ (x : ℤ) ∧
                (x : ℤ) < roundHalfEven ((pos.1 : ℚ) - (wm.width : ℚ) / 2) + wm.width ∧
                roundHalfEven ((pos.2 : ℚ) - (wm.height : ℚ) / 2) ≤ (y : ℤ) ∧
                (y : ℤ) < roundHalfEven ((pos.2 : ℚ) - (wm.height : ℚ) / 2) + wm.height then
              overPixel ((blankImage base.width base.height).px x y)
                (wm.px ((x : ℤ) - roundHalfEven ((pos.1 : ℚ) - (wm.width : ℚ) / 2)).toNat
                  ((y : ℤ) - roundHalfEven ((pos.2 : ℚ) - (wm.height : ℚ) / 2)).toNat)
            else (blankImage base.width base.height).px x y⟩ from by
        unfold alphaCompositeAt
        rw [if_neg (by push_neg; exact hneg)]
        rfl]
      refine ⟨rfl, rfl, fun x y hx hy => ?_⟩
      show overPixel (base.px x y) _ = base.px x y
      dsimp only
      have hcond : ¬(roundHalfEven ((pos.1 : ℚ) - (wm.width : ℚ) / 2) ≤ (x : ℤ) ∧
          (x : ℤ) < roundHalfEven ((pos.1 : ℚ) - (wm.width : ℚ) / 2) + wm.width ∧
          roundHalfEven ((pos.2 : ℚ) - (wm.height : ℚ) / 2) ≤ (y : ℤ) ∧
          (y : ℤ) < roundHalfEven ((pos.2 : ℚ) - (wm.height : ℚ) / 2) + wm.height) := by
        rcases hw with h | h | h | h
        · rintro ⟨-, h2, -, -⟩
          have := hneg.1
          omega
        · rintro ⟨h1, -, -, -⟩
          have hxw : (x : ℤ) < base.width := by exact_mod_cast hx
          omega
        · rintro ⟨-, -, -, h4⟩
          have := hneg.2
          omega
        · rintro ⟨-, -, h3, -⟩
          have hyw : (y : ℤ) < base.height := by exact_mod_cast hy
          omega
      rw [if_neg hcond]
      exact overPixel_transparent _

/-- Witness for `merge_no_overlap_noop`: a 2×2 layer and a 2×2 image
watermark centered at (100, 100) on a 4×4 canvas (destination 99 ≥ 4). -/
theorem merge_no_overlap_noop_witness :
    ((roundHalfEven ((100 : ℚ) - (2 : ℚ) / 2) + (2 : ℤ) ≤ 0 ∨
        (4 : ℤ) ≤ roundHalfEven ((100 : ℚ) - (2 : ℚ) / 2) ∨
        roundHalfEven ((100 : ℚ) - (2 : ℚ) / 2) + (2 : ℤ) ≤ 0 ∨
        (4 : ℤ) ≤ roundHalfEven ((100 : ℚ) - (2 : ℚ) / 2)) ∧
      (roundHalfEven ((100 : ℚ) - (2 : ℚ) / 2) + (2 : ℤ) ≤ 0 ∨
        (4 : ℤ) ≤ roundHalfEven ((100 : ℚ) - (2 : ℚ) / 2) ∨
        roundHalfEven ((100 : ℚ) - (2 : ℚ) / 2) + (2 : ℤ) ≤ 0 ∨
        (4 : ℤ) ≤ roundHalfEven ((100 : ℚ) - (2 : ℚ) / 2))) ∧
    addTextWatermarkMerge ⟨4, 4, fun _ _ => (10, 20, 30, 255)⟩
        ⟨2, 2, fun _ _ => (255, 255, 255, 128)⟩ (100, 100) =
      ⟨4, 4, fun _ _ => (10, 20, 30, 255)⟩ ∧
    PixImage.Equiv
      (addImageWatermarkMerge ⟨4, 4, fun _ _ => (10, 20, 30, 255)⟩
        ⟨2, 2, fun _ _ => (0, 0, 0, 200)⟩ (100, 100))
      ⟨4, 4, fun _ _ => (10, 20, 30, 255)⟩ := by
  have h99 : roundHalfEven ((100 : ℚ) - (2 : ℚ) / 2) = 99 := by
    norm_num [roundHalfEven]
  have hside : roundHalfEven ((100 : ℚ) - (2 : ℚ) / 2) + (2 : ℤ) ≤ 0 ∨
      (4 : ℤ) ≤ roundHalfEven ((100 : ℚ) - (2 : ℚ) / 2) ∨
      roundHalfEven ((100 : ℚ) - (2 : ℚ) / 2) + (2 : ℤ) ≤ 0 ∨
      (4 : ℤ) ≤ roundHalfEven ((100 : ℚ) - (2 : ℚ) / 2) := by
    rw [h99]
    norm_num
  refine ⟨⟨hside, hside⟩, ?_⟩
  exact merge_no_overlap_noop ⟨4, 4, fun _ _ => (10, 20, 30, 255)⟩
    ⟨2, 2, fun _ _ => (255, 255, 255, 128)⟩ ⟨2, 2, fun _ _ => (0, 0, 0, 200)⟩ (100, 100)
    hside hside

/-- C6 (code-bug evaluation): an image watermark whose destination
rectangle overlaps the canvas only partly, with a negative top-left
(4×4 watermark centered at (0,0) on a 10×10 canvas, destination x =
−2), is dropped entirely: Pillow's `alpha_composite` raises
`ValueError("Destination must be non-negative")`, the `except` swallows
it, and the base image is returned with no watermark pixels — the
visible portion is not composited as the claim requires. -/
theorem addImageWatermark_negative_dest_drops_watermark :
    (roundHalfEven ((0 : ℚ) - (4 : ℚ) / 2) < 0 ∧
      0 < roundHalfEven ((0 : ℚ) - (4 : ℚ) / 2) + (4 : ℤ) ∧
      roundHalfEven ((0 : ℚ) - (4 : ℚ) / 2) < (10 : ℤ)) ∧
    addImageWatermarkMerge ⟨10, 10, fun _ _ => (100, 150, 200, 255)⟩
        ⟨4, 4, fun _ _ => (255, 0, 0, 255)⟩ (0, 0) =
      ⟨10, 10, fun _ _ => (100, 150, 200, 255)⟩ := by
  have hdx : roundHalfEven ((0 : ℚ) - (4 : ℚ) / 2) = -2 := by
    norm_num [roundHalfEven]
  refine ⟨⟨by rw [hdx]; norm_num, by rw [hdx]; norm_num, by rw [hdx]; norm_num⟩, ?_⟩
  unfold addImageWatermarkMerge
  dsimp only
  push_cast
  rw [show alphaCompositeAt (blankImage 10 10) ⟨4, 4, fun _ _ => (255, 0, 0, 255)⟩
      (roundHalfEven ((0 : ℚ) - (4 : ℚ) / 2)) (roundHalfEven ((0 : ℚ) - (4 : ℚ) / 2)) =
      none from by
    unfold alphaCompositeAt
    rw [if_pos (Or.inl (by rw [hdx]; norm_num))]]

end ImageProcessor

namespace FontResolver

theorem scoreEntry_nonneg (style : String) (bold italic : Bool) :
    0 ≤ scoreEntry style bold italic := by
  unfold scoreEntry
  split_ifs <;> norm_num

theorem entryScore_nonneg (targetStyle : String) (bold italic : Bool) (e : FontEntry) :
    0 ≤ entryScore targetStyle bold italic e := by
  have h := scoreEntry_nonneg e.style bold italic
  unfold entryScore
  split_ifs <;> linarith

theorem bestLoop_split (score : FontEntry → ℤ) (l : List FontEntry) :
    ∀ a : FontEntry,
      ∃ l₁ b l₂, a :: l = l₁ ++ b :: l₂ ∧
        (∀ x ∈ l₁, score x < score b) ∧
        (∀ x ∈ l₂, score x ≤ score b) ∧
        bestLoop score (some a) (score a) l = (some b, score b) := by
  induction l with
  | nil =>
    intro a
    exact ⟨[], a, [], rfl, by simp, by simp, rfl⟩
  | cons e rest ih =>
    intro a
    by_cases hc : score a < score e
    · have hstep : bestLoop score (some a) (score a) (e :: rest) =
          bestLoop score (some e) (score e) rest := by
        simp only [bestLoop]
        rw [if_pos hc]
      obtain ⟨l₁, b, l₂, heq, h₁, h₂, hres⟩ := ih e
      have hbe : score e ≤ score b := by
        rcases l₁ with _ | ⟨f, t⟩
        · simp only [List.nil_append, List.cons.injEq] at heq
          exact le_of_eq (congrArg score heq.1)
        · simp only [List.cons_append, List.cons.injEq] at heq
          have hf := h₁ f (by simp)
          rw [← heq.1] at hf
          exact le_of_lt hf
      refine ⟨a :: l₁, b, l₂, ?_, ?_, h₂, by rw [hstep, hres]⟩
      · simpa using congrArg (List.cons a) heq
      · intro x hx
        rcases List.mem_cons.1 hx with hxa | hxl
        · exact hxa ▸ lt_of_lt_of_le hc hbe
        · exact h₁ x hxl
    · have hstep : bestLoop score (some a) (score a) (e :: rest) =
          bestLoop score (some a) (score a) rest := by
        simp only [bestLoop]
        rw [if_neg hc]
      push_neg at hc
      obtain ⟨l₁, b, l₂, heq, h₁, h₂, hres⟩ := ih a
      rcases l₁ with _ | ⟨f, t⟩
      · simp only [List.nil_append, List.cons.injEq] at heq
        refine ⟨[], b, e :: l₂, ?_, by simp, ?_, by rw [hstep, hres]⟩
        · simp [← heq.1, ← heq.2]
        · intro x hx
          rcases List.mem_cons.1 hx with hxe | hxl
          · rw [hxe, ← heq.1]
            exact hc
          · exact h₂ x hxl
      · simp only [List.cons_append, List.cons.injEq] at heq
        have hab : score a < score b := by
          have hf := h₁ f (by simp)
          rw [heq.1]
          exact hf
        refine ⟨a :: e :: t, b, l₂, ?_, ?_, h₂, by rw [hstep, hres]⟩
        · simp [heq.2]
        · intro x hx
          rcases List.mem_cons.1 hx with hxa | hx2
          · exact hxa ▸ hab
          · rcases List.mem_cons.1 hx2 with hxe | hxt
            · exact hxe ▸ lt_of_le_of_lt hc hab
            · exact h₁ x (by simp [hxt])

theorem cacheLookup_cons_self (c : List ((String × Bool × Bool × String) × Option (String × ℤ)))
    (k : String × Bool × Bool × String) (v : Option (String × ℤ)) :
    cacheLookup ((k, v) :: c) k = some v := by
  unfold cacheLookup
  rw [List.find?_cons_of_pos _ (by simp)]
  rfl

/-- C7: on a cache miss for a non-empty family, `FontResolver.resolve`
returns `None` when the family has no indexed entries, and otherwise
the `(path, index)` of the entry with the highest score under the
scoring rule (`entryScore`), keeping the first-seen entry on ties
(every earlier entry scores strictly less, every later entry scores no
more); and an immediately repeated call with the same key returns the
memoized result with the state unchanged. -/
theorem fontResolver_resolve_spec (s : FontResolverState) (family styleName : String)
    (bold italic : Bool) (hfam : family ≠ "")
    (hmiss : cacheLookup s.cache (strLower family, bold, italic, strTrim (strLower styleName)) = none) :
    (effectiveEntries s.fontsByFamily family = [] →
      (resolve s family bold italic styleName).2 = none) ∧
    (∀ (e : FontEntry) (rest : List FontEntry),
      effectiveEntries s.fontsByFamily family = e :: rest →
      ∃ l₁ b l₂, e :: rest = l₁ ++ b :: l₂ ∧
        (∀ x ∈ l₁, entryScore (strTrim (strLower styleName)) bold italic x <
          entryScore (strTrim (strLower styleName)) bold italic b) ∧
        (∀ x ∈ l₂, entryScore (strTrim (strLower styleName)) bold italic x ≤
          entryScore (strTrim (strLower styleName)) bold italic b) ∧
        (resolve s family bold italic styleName).2 = some (b.path, b.index)) ∧
    resolve (resolve s family bold italic styleName).1 family bold italic styleName =
      resolve s family bold italic styleName := by
  rcases hE : effectiveEntries s.fontsByFamily family with _ | ⟨e, rest⟩
  · have hcall : resolve s family bold italic styleName =
        ({ s with cache := ((strLower family, bold, italic, strTrim (strLower styleName)), none)
          :: s.cache }, none) := by
      unfold resolve
      rw [if_neg hfam]
      dsimp only
      rw [hmiss, hE]
    refine ⟨fun _ => by rw [hcall], fun e rest hcons => List.noConfusion hcons, ?_⟩
    · rw [hcall]
      unfold resolve
      rw [if_neg hfam]
      dsimp only
      rw [cacheLookup_cons_self]
  · have hscore0 : (-1 : ℤ) < entryScore (strTrim (strLower styleName)) bold italic e :=
      lt_of_lt_of_le (by norm_num) (entryScore_nonneg _ _ _ _)
    obtain ⟨l₁, b, l₂, heq, h₁, h₂, hloop⟩ :=
      bestLoop_split (entryScore (strTrim (strLower styleName)) bold italic) rest e
    have hfirst : bestLoop (entryScore (strTrim (strLower styleName)) bold italic) none (-1)
        (e :: rest) =
        bestLoop (entryScore (strTrim (strLower styleName)) bold italic) (some e)
          (entryScore (strTrim (strLower styleName)) bold italic e) rest := by
      simp only [bestLoop]
      rw [if_pos hscore0]
    have hcall : resolve s family bold italic styleName =
        ({ s with cache := ((strLower family, bold, italic, strTrim (strLower styleName)),
            some (b.path, b.index)) :: s.cache }, some (b.path, b.index)) := by
      unfold resolve
      rw [if_neg hfam]
      dsimp only
      rw [hmiss, hE]
      dsimp only
      rw [hfirst, hloop]
    refine ⟨fun hnil => List.noConfusion hnil, fun e' rest' hcons => ?_, ?_⟩
    · injection hcons with he' hrest'
      subst he'
      subst hrest'
      exact ⟨l₁, b, l₂, heq, h₁, h₂, by rw [hcall]⟩
    · rw [hcall]
      unfold resolve
      rw [if_neg hfam]
      dsimp only
      rw [cacheLookup_cons_self]

/-- Witness for `fontResolver_resolve_spec`: a fresh resolver indexing a
Bold face and a Regular face of Arial, queried for regular Arial. -/
theorem fontResolver_resolve_spec_witness :
    (("Arial" : String) ≠ "" ∧
      cacheLookup (FontResolverState.mk
          [("arial", [⟨"p1", "Bold", 0⟩, ⟨"p2", "Regular", 0⟩])] []).cache
        (strLower "Arial", false, false, strTrim (strLower "")) = none) ∧
    ((effectiveEntries [("arial", [⟨"p1", "Bold", 0⟩, ⟨"p2", "Regular", 0⟩])] "Arial" = [] →
      (resolve ⟨[("arial", [⟨"p1", "Bold", 0⟩, ⟨"p2", "Regular", 0⟩])], []⟩
        "Arial" false false "").2 = none) ∧
    (∀ (e : FontEntry) (rest : List FontEntry),
      effectiveEntries [("arial", [⟨"p1", "Bold", 0⟩, ⟨"p2", "Regular", 0⟩])] "Arial" =
        e :: rest →
      ∃ l₁ b l₂, e :: rest = l₁ ++ b :: l₂ ∧
        (∀ x ∈ l₁, entryScore (strTrim (strLower "")) false false x <
          entryScore (strTrim (strLower "")) false false b) ∧
        (∀ x ∈ l₂, entryScore (strTrim (strLower "")) false false x ≤
          entryScore (strTrim (strLower "")) false false b) ∧
        (resolve ⟨[("arial", [⟨"p1", "Bold", 0⟩, ⟨"p2", "Regular", 0⟩])], []⟩
          "Arial" false false "").2 = some (b.path, b.index)) ∧
    resolve (resolve ⟨[("arial", [⟨"p1", "Bold", 0⟩, ⟨"p2", "Regular", 0⟩])], []⟩
        "Arial" false false "").1 "Arial" false false "" =
      resolve ⟨[("arial", [⟨"p1", "Bold", 0⟩, ⟨"p2", "Regular", 0⟩])], []⟩
        "Arial" false false "") := by
  refine ⟨⟨by decide, rfl⟩, ?_⟩
  exact fontResolver_resolve_spec
    ⟨[("arial", [⟨"p1", "Bold", 0⟩, ⟨"p2", "Regular", 0⟩])], []⟩
    "Arial" "" false false (by decide) rfl

end FontResolver

namespace ImageProcessor

/-- C8: for an image-watermark configuration whose source path is empty
or does not exist on disk, `apply_watermark` returns the working copy —
the base image after any requested pre-resize — unchanged: the
compositing call is never reached and no watermark pixels are drawn. -/
theorem applyWatermark_missing_image_source (resample : PixImage → ℕ × ℕ → PixImage)
    (fs : String → Bool) (store : String → Option PixImage)
    (addImage : PixImage → String → ℤ × ℤ → ℚ → ℤ → ℤ → PixImage)
    (textBranch : PixImage → WatermarkConfig → PixImage)
    (image : PixImage) (cfg : WatermarkConfig)
    (htype : cfg.watermark_type = "image")
    (hmiss : cfg.image_watermark_path = "" ∨ fs cfg.image_watermark_path = false) :
    applyWatermark resample fs store addImage textBranch image cfg =
      (if cfg.resize_enabled then
        resizeImage resample image cfg.resize_method cfg.resize_width cfg.resize_height
          cfg.resize_percentage cfg.keep_aspect_ratio
      else image) := by
  have hnot : ¬(cfg.image_watermark_path ≠ "" ∧ fs cfg.image_watermark_path = true) := by
    rcases hmiss with h | h
    · exact fun hc => hc.1 h
    · intro hc
      rw [h] at hc
      exact Bool.false_ne_true hc.2
  unfold applyWatermark
  dsimp only
  rw [if_pos htype, if_neg hnot]

/-- Witness for `applyWatermark_missing_image_source` on an 8×6 blank
canvas and `sampleConfig` (image watermark with empty source path). -/
theorem applyWatermark_missing_image_source_witness :
    (sampleConfig.watermark_type = "image" ∧
      (sampleConfig.image_watermark_path = "" ∨
        (fun _ => false : String → Bool) sampleConfig.image_watermark_path = false)) ∧
    applyWatermark (fun img _ => img) (fun _ => false) (fun _ => none)
        (fun img _ _ _ _ _ => img) (fun img _ => img) (blankImage 8 6) sampleConfig =
      (if sampleConfig.resize_enabled then
        resizeImage (fun img _ => img) (blankImage 8 6) sampleConfig.resize_method
          sampleConfig.resize_width sampleConfig.resize_height
          sampleConfig.resize_percentage sampleConfig.keep_aspect_ratio
      else blankImage 8 6) := by
  refine ⟨⟨rfl, Or.inl rfl⟩, ?_⟩
  exact applyWatermark_missing_image_source (fun img _ => img) (fun _ => false)
    (fun _ => none) (fun img _ _ _ _ _ => img) (fun img _ => img) (blankImage 8 6)
    sampleConfig rfl (Or.inl rfl)

/-- C9: when the configuration's `font_path` is empty and the font
family resolves successfully, `apply_watermark` writes the resolved
font path, face index and family name back into the caller-owned
configuration object, so the configuration is not left unchanged
whenever the resolved path is non-empty. -/
theorem applyFontResolutionStep_mutates_config (s : FontResolver.FontResolverState)
    (cfg : WatermarkConfig) (fam p : String) (idx : ℤ)
    (hpath : cfg.font_path = "")
    (hfam : cfg.font_family ≠ "")
    (hres : (resolveAliasLoop cfg.font_bold cfg.font_italic "" s [] [cfg.font_family]).2 =
      some (fam, (p, idx))) :
    (applyFontResolutionStep s cfg).2.font_path = p ∧
    (applyFontResolutionStep s cfg).2.font_index = idx ∧
    (applyFontResolutionStep s cfg).2.font_family =
      (if fam ≠ "" then fam else cfg.font_family) ∧
    (p ≠ "" → (applyFontResolutionStep s cfg).2 ≠ cfg) := by
  have hstep : applyFontResolutionStep s cfg =
      ((resolveAliasLoop cfg.font_bold cfg.font_italic "" s [] [cfg.font_family]).1,
       { cfg with
          font_family := if fam ≠ "" then fam else cfg.font_family,
          font_path := p, font_index := idx }) := by
    unfold applyFontResolutionStep
    rw [if_pos hpath]
    dsimp only
    rw [if_pos hfam]
    rw [if_neg (by simp : ¬([cfg.font_family] = ([] : List String)))]
    rw [hres]
  rw [hstep]
  refine ⟨rfl, rfl, rfl, fun hp hEq => ?_⟩
  have hfp := congrArg WatermarkConfig.font_path hEq
  dsimp only at hfp
  rw [hpath] at hfp
  exact hp hfp

/-- Witness for `applyFontResolutionStep_mutates_config`: resolving
`sampleConfig` (font family `Arial`, empty `font_path`) against an index
holding a Bold and a Regular face of Arial resolves to the Regular face
`("p2", 0)` and writes it into the config. -/
theorem applyFontResolutionStep_mutates_config_witness :
    (sampleConfig.font_path = "" ∧ sampleConfig.font_family ≠ "" ∧
      (resolveAliasLoop sampleConfig.font_bold sampleConfig.font_italic ""
        ⟨[("arial", [⟨"p1", "Bold", 0⟩, ⟨"p2", "Regular", 0⟩])], []⟩ []
        [sampleConfig.font_family]).2 = some ("Arial", ("p2", 0))) ∧
    (applyFontResolutionStep
        ⟨[("arial", [⟨"p1", "Bold", 0⟩, ⟨"p2", "Regular", 0⟩])], []⟩
        sampleConfig).2.font_path = "p2" ∧
    (applyFontResolutionStep
        ⟨[("arial", [⟨"p1", "Bold", 0⟩, ⟨"p2", "Regular", 0⟩])], []⟩
        sampleConfig).2.font_index = 0 ∧
    (applyFontResolutionStep
        ⟨[("arial", [⟨"p1", "Bold", 0⟩, ⟨"p2", "Regular", 0⟩])], []⟩
        sampleConfig).2.font_family =
      (if ("Arial" : String) ≠ "" then "Arial" else sampleConfig.font_family) ∧
    (("p2" : String) ≠ "" →
      (applyFontResolutionStep
        ⟨[("arial", [⟨"p1", "Bold", 0⟩, ⟨"p2", "Regular", 0⟩])], []⟩
        sampleConfig).2 ≠ sampleConfig) := by
  refine ⟨⟨rfl, by decide, by decide⟩, ?_⟩
  exact applyFontResolutionStep_mutates_config
    ⟨[("arial", [⟨"p1", "Bold", 0⟩, ⟨"p2", "Regular", 0⟩])], []⟩
    sampleConfig "Arial" "p2" 0 rfl (by decide) (by decide)

end ImageProcessor
